import Mathlib

/-!
Shallow embedding of the moodboard-generator synchronization engine:
the offline sync queue (`sync-queue`), the bounded-concurrency task pool
(`runConcurrent`), the push/pull cloud pipeline (`cloud.ts`), the remote
push endpoint (`api/sync/route.ts` POST), the content hash (`storage.ts`
`imageHash`) and the single-flight sync orchestrator (`CloudProvider`
`sync`).  JavaScript strings are modeled as Lean `String`s (all string
data in play is BMP, where JS UTF-16 order and Lean scalar order agree);
JS numbers carried opaquely through records are modeled as `Int`;
32-bit-intended arithmetic is modeled as `Nat`/`Int` with explicit
`% 2 ^ 32`.
-/

namespace Moodboard

/-- Model of JavaScript `[...new Set(l)]`: keep the first occurrence of
each element, preserving insertion order. -/
def jsSetDedupAux {α : Type} [DecidableEq α] (seen : List α) : List α → List α
  | [] => []
  | x :: xs => if x ∈ seen then jsSetDedupAux seen xs else x :: jsSetDedupAux (x :: seen) xs

/-- `[...new Set(l)]`. -/
def jsSetDedup {α : Type} [DecidableEq α] (l : List α) : List α := jsSetDedupAux [] l

/-- JavaScript `<` on strings, on the underlying character lists:
lexicographic by UTF-16 code unit (code point, for BMP data). -/
def jsLtChars : List Char → List Char → Bool
  | [], [] => false
  | [], _ :: _ => true
  | _ :: _, [] => false
  | a :: as, b :: bs =>
    if a.toNat < b.toNat then true
    else if b.toNat < a.toNat then false
    else jsLtChars as bs

/-- JavaScript string comparison `a < b`. -/
def jsStrLt (a b : String) : Bool := jsLtChars a.data b.data

/-- JavaScript truthiness of a `string | null` value: `null` and the
empty string are falsy. -/
def jsTruthyStr : Option String → Bool
  | none => false
  | some s => !(s == "")

/-- `s.charCodeAt(i)` coerced to an integer by a subsequent bitwise or
arithmetic use: out-of-range access yields `NaN`, which `ToInt32` maps
to 0. -/
def jsCharCodeAt (payload : List Char) (i : Nat) : Nat :=
  match payload[i]? with
  | some c => c.toNat
  | none => 0

/-- JavaScript `ToInt32` on an exact integer. -/
def toInt32 (x : Int) : Int := (x + 2 ^ 31) % 2 ^ 32 - 2 ^ 31

/-- JavaScript `x >>> 0` (`ToUint32`) on an exact integer. -/
def toUint32 (x : Int) : Nat := (x % 2 ^ 32).toNat

-- ---------------------------------------------------------------------------
-- storage.ts: imageHash
-- ---------------------------------------------------------------------------

/-- `dataUrl.substring(dataUrl.indexOf(',') + 1)`: the data-URL payload.
When no comma is present, `indexOf` returns -1 and the whole string is
the payload. -/
def payloadOf (dataUrl : List Char) : List Char :=
  if ',' ∈ dataUrl then (dataUrl.dropWhile (fun c => c ≠ ',')).drop 1 else dataUrl

/-- Index sequence of the stride-sampling loop
`for (let i = 0; i < len; i += step)`. -/
def strideIdxs (len step : Nat) : List Nat :=
  (List.range ((len + step - 1) / step)).map (fun k => k * step)

/-- One iteration of the sampling loop:
`h1 = (h1 ^ c) * 0x01000193; h2 = ((h2 << 5) - h2 + c) | 0`.
The `h1` product is kept mod `2 ^ 32`; in JS the float64 product is
truncated by the `ToInt32` of the next `^`, and rounding of the 56-bit
product can perturb low bits — none of the verified properties depend
on the numeric value of `h1`/`h2`, only on their base-36 rendering. -/
def fnvStep (acc : Nat × Int) (c : Nat) : Nat × Int :=
  (((acc.1 ^^^ c) * 0x01000193) % 2 ^ 32,
   toInt32 (toInt32 (acc.2 * 32) - acc.2 + c))

/-- The sampling loop of `imageHash`, folded over the sampled indices. -/
def fnvFold (payload : List Char) (idxs : List Nat) : Nat × Int :=
  idxs.foldl (fun acc i => fnvStep acc (jsCharCodeAt payload i)) (0x811c9dc5, 0)

/-- The two 32-bit accumulators of `imageHash` after the loop and the
final `h1 = ((h1 ^ payload.charCodeAt(len - 1)) * 0x01000193) >>> 0;
h2 = h2 >>> 0`. -/
def imageHashCore (payload : List Char) : Nat × Nat :=
  let len := payload.length
  let step := max 1 (len / 8000)
  let p := fnvFold payload (strideIdxs len step)
  ((((p.1 ^^^ jsCharCodeAt payload (len - 1)) * 0x01000193) % 2 ^ 32), toUint32 p.2)

/-- Digit characters used by JavaScript `Number.prototype.toString(36)`. -/
def toB36Digit (d : Nat) : Char :=
  if d < 10 then Char.ofNat (48 + d) else Char.ofNat (87 + d)

/-- `n.toString(36)` for a non-negative integer, as a character list. -/
def toB36 (n : Nat) : List Char :=
  if _h : n < 36 then [toB36Digit n]
  else toB36 (n / 36) ++ [toB36Digit (n % 36)]
  decreasing_by exact Nat.div_lt_self (by omega) (by omega)

/-- Value of a base-36 digit character. -/
def b36Val (c : Char) : Nat := if 97 ≤ c.toNat then c.toNat - 87 else c.toNat - 48

/-- Decode a base-36 digit string. -/
def decodeB36 (l : List Char) : Nat := l.foldl (fun acc c => acc * 36 + b36Val c) 0

/-- The segment of a character list after its last `'-'` (the whole
list when no `'-'` occurs). -/
def lastSegOf (l : List Char) : List Char :=
  (l.reverse.takeWhile (fun c => c ≠ '-')).reverse

/-- `imageHash` from `storage.ts` (also duplicated in the unnamed
`sync-queue`-adjacent source): stride-sampled FNV-1a-style hash of the
data-URL payload, rendered as
`lib-<h1 base36>-<h2 base36>-<payload length base36>`. -/
def imageHash (dataUrl : String) : String :=
  let payload := payloadOf dataUrl.data
  let core := imageHashCore payload
  ⟨'l' :: 'i' :: 'b' :: '-' ::
    (toB36 core.1 ++ '-' :: (toB36 core.2 ++ '-' :: toB36 payload.length))⟩

-- ---------------------------------------------------------------------------
-- sync-queue: OfflineQueue
-- ---------------------------------------------------------------------------

/-- One persisted entry of the offline sync queue. -/
structure SyncQueueEntry where
  artworkIds : List String
  queuedAt : String
  deriving DecidableEq, Repr

/-- `enqueueSync(artworkIds)` from `sync-queue`: merge the given ids into
the pending set.  The queue value threads explicitly in place of the
`localStorage` round-trip. -/
def enqueueSync (artworkIds : List String) (now : String)
    (queue : List SyncQueueEntry) : List SyncQueueEntry :=
  if artworkIds = [] then queue
  else
    let existingIds := queue.flatMap (fun e => e.artworkIds)
    let newIds := artworkIds.filter (fun id => decide (id ∉ existingIds))
    if newIds = [] ∧ queue ≠ [] then queue
    else
      match queue.getLast? with
      | some last =>
        -- merge into the last entry
        queue.dropLast ++ [{ artworkIds := jsSetDedup (last.artworkIds ++ artworkIds),
                             queuedAt := now }]
      | none =>
        [{ artworkIds := jsSetDedup artworkIds, queuedAt := now }]

/-- `clearSyncQueue()`: removes the persisted queue. -/
def clearSyncQueue : List SyncQueueEntry := []

/-- `getPendingArtworkIds()`: all unique artwork ids pending sync. -/
def getPendingArtworkIds (queue : List SyncQueueEntry) : List String :=
  jsSetDedup (queue.flatMap (fun e => e.artworkIds))

/-- `hasPendingSync()`. -/
def hasPendingSync (queue : List SyncQueueEntry) : Bool := !queue.isEmpty

/-- A sequence of `enqueueSync` calls (ids, timestamp) applied to the
empty queue. -/
def applySyncCalls (calls : List (List String × String)) : List SyncQueueEntry :=
  calls.foldl (fun q c => enqueueSync c.1 c.2 q) []

/-- Queue states reachable through the module's own operations. -/
inductive QueueReachable : List SyncQueueEntry → Prop
  | nil : QueueReachable []
  | enqueue {q} (ids : List String) (now : String) :
      QueueReachable q → QueueReachable (enqueueSync ids now q)

-- ---------------------------------------------------------------------------
-- cloud.ts: runConcurrent (TaskPool)
-- ---------------------------------------------------------------------------

/-- A `PromiseSettledResult`. -/
inductive SettledResult (ε α : Type) where
  | fulfilled (value : α)
  | rejected (reason : ε)
  deriving DecidableEq, Repr

/-- Settling one awaited task: `try { value } catch (reason)`. -/
def settle {ε α : Type} : Except ε α → SettledResult ε α
  | .ok v => .fulfilled v
  | .error e => .rejected e

/-- JavaScript array index assignment `a[i] = v`: the array grows to
length `i + 1` if needed (holes modeled as `none`). -/
def jsArraySet {α : Type} (l : List (Option α)) (i : Nat) (v : α) : List (Option α) :=
  (l ++ List.replicate (i + 1 - l.length) none).set i (some v)

/-- Shared state of the worker loops: the next-index cursor and the
results array. -/
structure PoolState (ε α : Type) where
  idx : Nat
  results : List (Option (SettledResult ε α))
  deriving Repr

/-- One `worker()` loop: claim the cursor, run the claimed task, store
its settled outcome, until the cursor is exhausted.  A task is a
zero-argument operation whose awaited outcome is the given `Except`.
Each claim of the shared cursor is atomic in JS and the outcome written
at index `i` depends only on task `i`, so the final results array is
independent of how the worker loops interleave; the model executes the
canonical schedule in which each worker runs to completion in turn. -/
def workerRun {ε α : Type} (tasks : List (Except ε α)) (s : PoolState ε α) :
    PoolState ε α :=
  match h : tasks[s.idx]? with
  | none => s
  | some t =>
    workerRun tasks
      { idx := s.idx + 1, results := jsArraySet s.results s.idx (settle t) }
  termination_by tasks.length - s.idx
  decreasing_by
    have : s.idx < tasks.length := by
      by_contra hge
      rw [List.getElem?_eq_none (by omega)] at h
      exact Option.noConfusion h
    omega

/-- Spawn `n` workers over the shared state. -/
def spawnWorkers {ε α : Type} (tasks : List (Except ε α)) :
    Nat → PoolState ε α → PoolState ε α
  | 0, s => s
  | n + 1, s => spawnWorkers tasks n (workerRun tasks s)

/-- `runConcurrent(tasks, concurrency)` from `cloud.ts`:
`Math.min(concurrency, tasks.length)` workers drain the task list and
the per-index settled results are returned. -/
def runConcurrent {ε α : Type} (tasks : List (Except ε α)) (concurrency : Nat) :
    List (Option (SettledResult ε α)) :=
  (spawnWorkers tasks (min concurrency tasks.length) ⟨0, []⟩).results

/-- `MAX_CONCURRENCY` from `cloud.ts`. -/
def MAX_CONCURRENCY : Nat := 3

-- ---------------------------------------------------------------------------
-- storage.ts / cloud.ts data model
-- ---------------------------------------------------------------------------

/-- `CanvasImage` from `storage.ts`.  Numeric geometry fields are carried
opaquely and modeled as `Int`. -/
structure CanvasImage where
  id : String
  dataUrl : String
  x : Int
  y : Int
  width : Int
  height : Int
  rotation : Int
  pinned : Bool
  zIndex : Int
  naturalWidth : Int
  naturalHeight : Int
  deriving DecidableEq, Repr

/-- `Artwork` from `storage.ts` (orientation kept as its string value). -/
structure Artwork where
  id : String
  title : String
  caption : String
  images : List CanvasImage
  canvasWidth : Int
  canvasHeight : Int
  orientation : String
  bgColor : String
  imageMargin : Bool
  categories : List String
  pinned : Bool
  createdAt : String
  updatedAt : String
  thumbnail : Option String
  deriving DecidableEq, Repr

/-- `CloudCanvasImage` from `cloud.ts`: a canvas image with the raw bytes
replaced by the content hash. -/
structure CloudCanvasImage where
  id : String
  imageHash : String
  x : Int
  y : Int
  width : Int
  height : Int
  rotation : Int
  pinned : Bool
  zIndex : Int
  naturalWidth : Int
  naturalHeight : Int
  deriving DecidableEq, Repr

/-- `toCloudCanvas` from `cloud.ts`. -/
def toCloudCanvas (imgs : List CanvasImage) : List CloudCanvasImage :=
  imgs.map (fun img =>
    { id := img.id, imageHash := imageHash img.dataUrl, x := img.x, y := img.y,
      width := img.width, height := img.height, rotation := img.rotation,
      pinned := img.pinned, zIndex := img.zIndex,
      naturalWidth := img.naturalWidth, naturalHeight := img.naturalHeight })

/-- The board record sent to `/api/sync` by `pushToCloud`. -/
structure BoardPayload where
  id : String
  title : String
  caption : String
  categories : List String
  canvasState : List CloudCanvasImage
  canvasWidth : Int
  canvasHeight : Int
  background : String
  orientation : String
  margin : Bool
  pinned : Bool
  createdAt : String
  updatedAt : String
  syncVersion : Nat
  deriving DecidableEq, Repr

/-- The per-board mapping inside `pushToCloud` (`syncVersion: 1`). -/
def toBoardPayload (aw : Artwork) : BoardPayload :=
  { id := aw.id, title := aw.title, caption := aw.caption,
    categories := aw.categories, canvasState := toCloudCanvas aw.images,
    canvasWidth := aw.canvasWidth, canvasHeight := aw.canvasHeight,
    background := aw.bgColor, orientation := aw.orientation,
    margin := aw.imageMargin, pinned := aw.pinned,
    createdAt := aw.createdAt, updatedAt := aw.updatedAt, syncVersion := 1 }

/-- The value stored per content hash in `pushToCloud`'s `uniqueImages`
map: `{ dataUrl, nw, nh }`. -/
structure UploadMeta where
  dataUrl : String
  nw : Int
  nh : Int
  deriving DecidableEq, Repr

/-- The `{ dataUrl, nw, nh }` value recorded for an image. -/
def uploadMetaOf (img : CanvasImage) : UploadMeta :=
  { dataUrl := img.dataUrl, nw := img.naturalWidth, nh := img.naturalHeight }

/-- One step of building `uniqueImages`: insert
`(imageHash(img.dataUrl) ↦ meta)` only if the hash is not yet present
(`if (!uniqueImages.has(hash)) uniqueImages.set(hash, ...)`). -/
def collectStep (m : List (String × UploadMeta)) (img : CanvasImage) :
    List (String × UploadMeta) :=
  let hash := imageHash img.dataUrl
  if (m.lookup hash).isSome then m else m ++ [(hash, uploadMetaOf img)]

/-- The `uniqueImages` map of `pushToCloud`, as an insertion-ordered
association list: for each board, for each image, run `collectStep`. -/
def collectUniqueImages (toPush : List Artwork) : List (String × UploadMeta) :=
  toPush.foldl (fun m aw => aw.images.foldl collectStep m) []

/-- Environment of a push cycle: whether each hash's upload succeeds and
whether the final `/api/sync` POST responds ok. -/
structure PushEnv where
  uploadOk : String → Bool
  postOk : Bool

/-- Network requests issued by `pushToCloud`. -/
inductive PushCall where
  | upload (hash : String)
  | post (boards : List BoardPayload)
  deriving DecidableEq, Repr

/-- The `since` filter at the top of `pushToCloud`:
`if (since) toPush = artworks.filter(a => a.updatedAt > since)`. -/
def pushFilter (artworks : List Artwork) (since : Option String) : List Artwork :=
  if jsTruthyStr since then
    artworks.filter (fun a => jsStrLt (since.getD "") a.updatedAt)
  else artworks

/-- `pushToCloud(artworks, fetchFn, since)` from `cloud.ts`: filter by
`since`, build the unique-image map, run the upload tasks through
`runConcurrent` (the settled results are discarded, exactly as in the
source), then POST the boards.  Returns the cycle outcome and the
network requests issued. -/
def pushToCloud (artworks : List Artwork) (env : PushEnv) (since : Option String) :
    Except String Unit × List PushCall :=
  let toPush := pushFilter artworks since
  if toPush = [] then (.ok (), [])
  else
    let uniqueImages := collectUniqueImages toPush
    let uploadTasks : List (Except String String) :=
      uniqueImages.map (fun p =>
        if env.uploadOk p.1 then .ok ("url-" ++ p.1) else .error "Image upload failed")
    let _settled := runConcurrent uploadTasks MAX_CONCURRENCY
    let boards := toPush.map toBoardPayload
    let calls := uniqueImages.map (fun p => PushCall.upload p.1) ++ [PushCall.post boards]
    if env.postOk then (.ok (), calls) else (.error "Sync push failed", calls)

/-- The board lists POSTed to `/api/sync` among a list of push calls. -/
def postedBoards (calls : List PushCall) : List (List BoardPayload) :=
  calls.filterMap (fun c =>
    match c with
    | .post boards => some boards
    | _ => none)

-- ---------------------------------------------------------------------------
-- cloud.ts: pullFromCloud (PullMerger)
-- ---------------------------------------------------------------------------

/-- A board as returned by the remote pull endpoint (fields that
`pullFromCloud` defaults with `??` are optional; timestamps are modeled
on the string side of the `string | number` union, where `toIso` is the
identity). -/
structure CloudBoard where
  id : String
  title : String
  caption : Option String
  categories : Option (List String)
  canvasState : List CloudCanvasImage
  canvasWidth : Int
  canvasHeight : Int
  background : Option String
  orientation : Option String
  margin : Option Bool
  pinned : Option Bool
  createdAt : String
  updatedAt : String
  deriving DecidableEq, Repr

/-- One entry of the pull endpoint's `imageMap`. -/
structure ImageLoc where
  url : String
  naturalWidth : Int
  naturalHeight : Int
  deriving DecidableEq, Repr

/-- Environment of a pull cycle: the remote response and, for each image
URL, the data URL its fetch resolves to (`none` models a failed fetch,
whose task rejects inside `runConcurrent` without populating the
cache). -/
structure PullEnv where
  boards : List CloudBoard
  imageMap : List (String × ImageLoc)
  fetchOk : String → Option String

/-- The bytes the prefetch task for hash `h` would cache:
`fetchImageAsDataUrl(imageMap[h].url)`. -/
def cacheFetch (env : PullEnv) (h : String) : Option String :=
  match env.imageMap.lookup h with
  | some loc => env.fetchOk loc.url
  | none => none

/-- The `uniqueHashes` set of `pullFromCloud`: every referenced hash that
is present in `imageMap`, in first-seen order. -/
def referencedResolvableHashes (env : PullEnv) : List String :=
  jsSetDedup (env.boards.flatMap (fun b =>
    b.canvasState.filterMap (fun ci =>
      if (env.imageMap.lookup ci.imageHash).isSome then some ci.imageHash else none)))

/-- The `dataUrlCache` after `runConcurrent(fetchTasks)`: one entry per
unique hash whose fetch succeeded. -/
def resolveCache (env : PullEnv) : List (String × String) :=
  (referencedResolvableHashes env).filterMap (fun h =>
    (cacheFetch env h).map (fun d => (h, d)))

/-- Rebuilding one `CanvasImage` from a cloud reference and the cache. -/
def resolveImage (cache : List (String × String)) (ci : CloudCanvasImage) : CanvasImage :=
  { id := ci.id, dataUrl := (cache.lookup ci.imageHash).getD "", x := ci.x, y := ci.y,
    width := ci.width, height := ci.height, rotation := ci.rotation,
    pinned := ci.pinned, zIndex := ci.zIndex,
    naturalWidth := ci.naturalWidth, naturalHeight := ci.naturalHeight }

/-- The per-board merge step of `pullFromCloud`: keep exactly the canvas
images whose hash is in the cache, resolve them, and rebuild the local
`Artwork` with the `??` defaults of the source. -/
def mergeBoard (cache : List (String × String)) (board : CloudBoard) : Artwork :=
  { id := board.id, title := board.title, caption := board.caption.getD "",
    images := (board.canvasState.filter (fun ci =>
                 (cache.lookup ci.imageHash).isSome)).map (resolveImage cache),
    canvasWidth := board.canvasWidth, canvasHeight := board.canvasHeight,
    orientation := board.orientation.getD "portrait",
    bgColor := board.background.getD "#f5f5f4",
    imageMargin := board.margin.getD false,
    categories := board.categories.getD [],
    pinned := board.pinned.getD false,
    createdAt := board.createdAt, updatedAt := board.updatedAt, thumbnail := none }

/-- `pullFromCloud` from `cloud.ts`, after a successful `/api/sync` GET:
prefetch the unique resolvable hashes, then map every returned board
through the merge step. -/
def pullFromCloud (env : PullEnv) : List Artwork :=
  env.boards.map (mergeBoard (resolveCache env))

-- ---------------------------------------------------------------------------
-- api/sync/route.ts: POST (remote push endpoint)
-- ---------------------------------------------------------------------------

/-- A board in the POSTed `{boards}` body.  Fields read with `??` or
`||` defaults are optional; `canvasState` is optional because
`!board.canvasState` skips the board when the field is absent (an array
value, even empty, is truthy). -/
structure IncomingBoard where
  id : String
  title : String
  canvasState : Option (List CloudCanvasImage)
  caption : Option String
  categories : Option (List String)
  canvasWidth : Option Int
  canvasHeight : Option Int
  background : Option String
  orientation : Option String
  margin : Option Bool
  pinned : Option Bool
  createdAt : Option String
  updatedAt : Option String
  syncVersion : Option Nat
  deriving DecidableEq, Repr

/-- A stored moodboard row for the calling `fid` (the columns the POST
handler reads or writes). -/
structure StoredBoard where
  title : String
  caption : String
  categories : List String
  canvasState : List CloudCanvasImage
  canvasWidth : Int
  canvasHeight : Int
  background : String
  orientation : String
  margin : Bool
  pinned : Bool
  createdAt : String
  updatedAt : String
  syncVersion : Option Nat
  deriving DecidableEq, Repr

/-- `String(x).slice(0, n)`. -/
def strTake (n : Nat) (s : String) : String := ⟨s.data.take n⟩

/-- `Number(x) || d`: `undefined`/`NaN`/`0` fall back to the default. -/
def jsNumOr (v : Option Int) (d : Int) : Int :=
  match v with
  | some w => if w == 0 then d else w
  | none => d

/-- `x || d` on an optional string: `undefined` and `""` fall back. -/
def jsStrOr (v : Option String) (d : String) : String :=
  match v with
  | some s => if s == "" then d else s
  | none => d

/-- The columns written by the POST handler for an incoming board
(shared by the update and insert branches), minus `createdAt` and
`syncVersion`, which differ between the branches. -/
def coerceBoard (now : String) (b : IncomingBoard) (createdAt : String)
    (syncVersion : Option Nat) : StoredBoard :=
  { title := strTake 200 b.title,
    caption := strTake 1000 (b.caption.getD ""),
    categories := (b.categories.getD []).take 20,
    canvasState := b.canvasState.getD [],
    canvasWidth := jsNumOr b.canvasWidth 1080,
    canvasHeight := jsNumOr b.canvasHeight 1527,
    background := strTake 20 (b.background.getD "#f5f5f4"),
    orientation := b.orientation.getD "portrait",
    margin := b.margin.getD false,
    pinned := b.pinned.getD false,
    createdAt := createdAt,
    updatedAt := jsStrOr b.updatedAt now,
    syncVersion := syncVersion }

/-- Handling of one board inside the POST loop of `api/sync/route.ts`:
skip invalid boards; update behind the `syncVersion` fence, incrementing
the stored version; insert fresh boards with `syncVersion = 1`.  The
store is the caller's rows keyed by board id. -/
def postSyncBoard (now : String) (store : List (String × StoredBoard))
    (b : IncomingBoard) : List (String × StoredBoard) :=
  if b.id = "" ∨ b.title = "" ∨ b.canvasState = none then store
  else
    match store.lookup b.id with
    | some existing =>
      if b.syncVersion.getD 1 ≥ existing.syncVersion.getD 1 then
        store.map (fun p =>
          if p.1 = b.id then
            (p.1, coerceBoard now b existing.createdAt
                    (some (existing.syncVersion.getD 1 + 1)))
          else p)
      else store
    | none =>
      store ++ [(b.id, coerceBoard now b (jsStrOr b.createdAt now) (some 1))]

/-- The POST handler body: reject bodies with more than 100 boards,
otherwise fold the per-board handler over the list. -/
def postSync (now : String) (store : List (String × StoredBoard))
    (boards : List IncomingBoard) : List (String × StoredBoard) :=
  if boards.length > 100 then store
  else boards.foldl (postSyncBoard now) store

-- ---------------------------------------------------------------------------
-- CloudProvider: the sync orchestrator
-- ---------------------------------------------------------------------------

/-- The `SyncStatus` values set through `setSyncStatus`. -/
inductive SyncStatusV where
  | idle
  | syncing
  | synced
  | offline
  | error
  deriving DecidableEq, Repr

/-- External events driving the single-flight discipline of `sync()`
while the connectivity signal stays online: a call arriving (tagged by
caller) and the in-flight cycle completing. -/
inductive OrchEvent where
  | arrive (caller : Nat)
  | complete
  deriving DecidableEq, Repr

/-- Observable state of the lock/waiter machinery in `CloudProvider`:
`lock` is `syncLock.current`, `queued` the single waiter slot
`queuedSync.current`, `current` the caller whose cycle is in flight.
`started` logs cycle starts, `settled` the callers whose returned
promise has resolved, and `dropped` the callers whose waiter record was
overwritten in the slot (their promise is never settled by anyone). -/
structure OrchState where
  lock : Bool
  current : Option Nat
  queued : Option Nat
  started : List Nat
  settled : List Nat
  dropped : List Nat
  deriving DecidableEq, Repr

/-- Initial orchestrator state. -/
def orchInit : OrchState :=
  { lock := false, current := none, queued := none,
    started := [], settled := [], dropped := [] }

/-- One event against the `sync` implementation: an arriving call either
takes the lock and starts a cycle, or overwrites the waiter slot
(discarding any previous waiter's resolve/reject); a completing cycle
settles its caller's promise and the `finally` block immediately
re-invokes `sync` for the queued waiter, if any (releasing and
re-taking the lock within the same synchronous stretch). -/
def orchStep (s : OrchState) : OrchEvent → OrchState
  | .arrive c =>
    if s.lock then
      { s with queued := some c,
               dropped := s.dropped ++ (match s.queued with
                                        | some old => [old]
                                        | none => []) }
    else
      { s with lock := true, current := some c, started := s.started ++ [c] }
  | .complete =>
    match s.current with
    | none => s
    | some c =>
      match s.queued with
      | some q =>
        { s with settled := s.settled ++ [c], queued := none,
                 current := some q, started := s.started ++ [q] }
      | none =>
        { s with settled := s.settled ++ [c], lock := false, current := none }

/-- Run a trace of events from the initial state. -/
def orchRun (events : List OrchEvent) : OrchState :=
  events.foldl orchStep orchInit

/-- The `since` computation of a sync cycle:
`pendingIds.length > 0 ? null : lastSyncAt`. -/
def computeSince (queue : List SyncQueueEntry) (lastSyncAt : Option String) :
    Option String :=
  if (getPendingArtworkIds queue).length > 0 then none else lastSyncAt

/-- Network requests issued during one sync cycle. -/
inductive NetCall where
  | push (c : PushCall)
  | pullReq
  deriving DecidableEq, Repr

/-- Environment of one sync cycle: connectivity at call time and inside
the catch handler, the local store contents, the push/pull endpoints'
behavior, and the current timestamp. -/
structure SyncEnv where
  onLine : Bool
  onLineAtCatch : Bool
  localArtworks : List Artwork
  pushEnv : PushEnv
  pullOk : Bool
  pullEnv : PullEnv
  now : String

/-- Result of one `sync()` invocation that runs (or defers) a cycle:
the returned artwork list, the statuses set (in order), the resulting
offline queue, the network requests issued, the resulting watermark and
the artworks written to the local store. -/
structure SyncCallResult where
  returned : List Artwork
  statusLog : List SyncStatusV
  queue : List SyncQueueEntry
  calls : List NetCall
  lastSyncAt : Option String
  saved : List Artwork
  deriving Repr

/-- One un-queued `sync(localOverride)` invocation from `CloudProvider`
(the waiter machinery is `orchStep`; this is the body that runs once the
lock is taken, plus the two pre-flight guards).  Offline calls enqueue
and return; online cycles push (watermark forced to `null` when the
offline queue is non-empty), pull, save, clear the queue and advance the
watermark; a thrown push/pull error is classified by re-reading the
connectivity signal. -/
def syncCycle (user : Bool) (localOverride : Option (List Artwork))
    (lastSyncAt : Option String) (queue : List SyncQueueEntry) (env : SyncEnv) :
    SyncCallResult :=
  if !user then
    { returned := [], statusLog := [], queue := queue, calls := [],
      lastSyncAt := lastSyncAt, saved := [] }
  else if !env.onLine then
    -- offline: queue the sync for later and update status
    let localArtworks := localOverride.getD env.localArtworks
    { returned := [], statusLog := [.offline],
      queue := enqueueSync (localArtworks.map (fun a => a.id)) env.now queue,
      calls := [], lastSyncAt := lastSyncAt, saved := [] }
  else
    let localArtworks := localOverride.getD env.localArtworks
    let artworksToPush := localArtworks
    -- `pendingIds.length > 0 ? null : lastSyncAt`
    let since := computeSince queue lastSyncAt
    let pushOut :=
      if 0 < artworksToPush.length then pushToCloud artworksToPush env.pushEnv since
      else (.ok (), [])
    match pushOut.1 with
    | .error _ =>
      if !env.onLineAtCatch then
        { returned := [], statusLog := [.syncing, .offline],
          queue := enqueueSync (localArtworks.map (fun a => a.id)) env.now queue,
          calls := pushOut.2.map .push, lastSyncAt := lastSyncAt, saved := [] }
      else
        { returned := [], statusLog := [.syncing, .error], queue := queue,
          calls := pushOut.2.map .push, lastSyncAt := lastSyncAt, saved := [] }
    | .ok _ =>
      if env.pullOk then
        let cloudArtworks := pullFromCloud env.pullEnv
        { returned := cloudArtworks, statusLog := [.syncing, .synced],
          queue := clearSyncQueue,
          calls := pushOut.2.map .push ++ [.pullReq],
          lastSyncAt := some env.now, saved := cloudArtworks }
      else if !env.onLineAtCatch then
        { returned := [], statusLog := [.syncing, .offline],
          queue := enqueueSync (localArtworks.map (fun a => a.id)) env.now queue,
          calls := pushOut.2.map .push ++ [.pullReq], lastSyncAt := lastSyncAt,
          saved := [] }
      else
        { returned := [], statusLog := [.syncing, .error], queue := queue,
          calls := pushOut.2.map .push ++ [.pullReq], lastSyncAt := lastSyncAt,
          saved := [] }

/-- The board lists POSTed to `/api/sync` among a cycle's network
requests. -/
def postedIn (calls : List NetCall) : List (List BoardPayload) :=
  postedBoards (calls.filterMap (fun c =>
    match c with
    | .push p => some p
    | .pullReq => none))

-- ---------------------------------------------------------------------------
-- Concrete sample data for evaluating the verified properties
-- ---------------------------------------------------------------------------

/-- A canvas image with fixed geometry. -/
def sampleImage (id dataUrl : String) : CanvasImage :=
  { id := id, dataUrl := dataUrl, x := 0, y := 0, width := 100, height := 100,
    rotation := 0, pinned := false, zIndex := 0, naturalWidth := 10, naturalHeight := 10 }

/-- An artwork with fixed presentation fields. -/
def sampleArtwork (id updatedAt : String) (images : List CanvasImage) : Artwork :=
  { id := id, title := id, caption := "", images := images,
    canvasWidth := 1080, canvasHeight := 1527, orientation := "portrait",
    bgColor := "#f5f5f4", imageMargin := false, categories := [], pinned := false,
    createdAt := "2024-01-01T00:00:00.000Z", updatedAt := updatedAt, thumbnail := none }

/-- Board updated before the watermark sample time. -/
def awEarly : Artwork := sampleArtwork "A" "2024-01-01T00:00:05.000Z" []

/-- Board updated after the watermark sample time. -/
def awLate : Artwork := sampleArtwork "B" "2024-01-01T00:00:15.000Z" []

/-- Two boards sharing one identical image. -/
def awShare1 : Artwork := sampleArtwork "S1" "2024-01-01T00:00:01.000Z"
  [sampleImage "i1" "data:,AB"]

/-- Second board sharing the image of `awShare1` plus one of its own. -/
def awShare2 : Artwork := sampleArtwork "S2" "2024-01-01T00:00:02.000Z"
  [sampleImage "i2" "data:,AB", sampleImage "i3" "data:,CD"]

/-- Push environment in which every image upload fails but the board
POST succeeds. -/
def envFailUpload : PushEnv := { uploadOk := fun _ => false, postOk := true }

/-- A cloud canvas reference with a given id and hash. -/
def sampleCloudImage (id hash : String) : CloudCanvasImage :=
  { id := id, imageHash := hash, x := 0, y := 0, width := 100, height := 100,
    rotation := 0, pinned := false, zIndex := 0, naturalWidth := 10, naturalHeight := 10 }

/-- A pulled board referencing one resolvable and one unknown hash. -/
def boardC6 : CloudBoard :=
  { id := "b1", title := "b1", caption := none, categories := none,
    canvasState := [sampleCloudImage "c1" "h1", sampleCloudImage "c2" "h2"],
    canvasWidth := 1080, canvasHeight := 1527, background := none,
    orientation := none, margin := none, pinned := none,
    createdAt := "2024-01-01T00:00:00.000Z", updatedAt := "2024-01-01T00:00:00.000Z" }

/-- Pull environment whose `imageMap` knows only hash `h1`. -/
def envPullC6 : PullEnv :=
  { boards := [boardC6],
    imageMap := [("h1", { url := "url1", naturalWidth := 10, naturalHeight := 10 })],
    fetchOk := fun u => if u == "url1" then some "data:,X" else none }

/-- A stored row at `syncVersion = 3`. -/
def storedC9 : StoredBoard :=
  { title := "b1", caption := "", categories := [], canvasState := [],
    canvasWidth := 1080, canvasHeight := 1527, background := "#f5f5f4",
    orientation := "portrait", margin := false, pinned := false,
    createdAt := "2024-01-01T00:00:00.000Z", updatedAt := "2024-01-01T00:00:00.000Z",
    syncVersion := some 3 }

/-- An incoming board carrying `syncVersion = 3` for the same id. -/
def incomingC9 : IncomingBoard :=
  { id := "b1", title := "b1", canvasState := some [], caption := none,
    categories := none, canvasWidth := none, canvasHeight := none,
    background := none, orientation := none, margin := none, pinned := none,
    createdAt := none, updatedAt := some "2024-01-02T00:00:00.000Z",
    syncVersion := some 3 }

/-- A sync environment that reports offline at call time. -/
def envOffline : SyncEnv :=
  { onLine := false, onLineAtCatch := false, localArtworks := [awEarly, awLate],
    pushEnv := { uploadOk := fun _ => true, postOk := true }, pullOk := true,
    pullEnv := { boards := [], imageMap := [], fetchOk := fun _ => none },
    now := "2024-01-02T00:00:00.000Z" }

/-- A sync environment that reports online throughout. -/
def envOnline : SyncEnv :=
  { onLine := true, onLineAtCatch := true, localArtworks := [awEarly, awLate],
    pushEnv := { uploadOk := fun _ => true, postOk := true }, pullOk := true,
    pullEnv := { boards := [], imageMap := [], fetchOk := fun _ => none },
    now := "2024-01-02T00:00:00.000Z" }

/-- Two enqueue calls with overlapping id sets. -/
def demoQueueCalls : List (List String × String) :=
  [(["a", "b"], "t1"), (["b", "c"], "t2")]

/-- Three tasks, the middle one failing. -/
def tasksC7 : List (Except String Nat) := [.ok 1, .error "boom", .ok 2]

-- ---------------------------------------------------------------------------
-- Generic lemmas
-- ---------------------------------------------------------------------------

theorem mem_jsSetDedupAux {α : Type} [DecidableEq α] (l : List α) :
    ∀ (seen : List α) (a : α), a ∈ jsSetDedupAux seen l ↔ a ∈ l ∧ a ∉ seen := by
  induction l with
  | nil => simp [jsSetDedupAux]
  | cons x xs ih =>
    intro seen a
    simp only [jsSetDedupAux]
    by_cases hx : x ∈ seen
    · simp only [if_pos hx, ih, List.mem_cons]
      constructor
      · rintro ⟨h1, h2⟩
        exact ⟨Or.inr h1, h2⟩
      · rintro ⟨h1 | h1, h2⟩
        · subst h1; exact absurd hx h2
        · exact ⟨h1, h2⟩
    · simp only [if_neg hx, List.mem_cons, ih]
      by_cases ha : a = x
      · subst ha; simp [hx]
      · simp [ha]

theorem mem_jsSetDedup {α : Type} [DecidableEq α] (l : List α) (a : α) :
    a ∈ jsSetDedup l ↔ a ∈ l := by
  simp [jsSetDedup, mem_jsSetDedupAux]

theorem nodup_jsSetDedupAux {α : Type} [DecidableEq α] (l : List α) :
    ∀ seen : List α, (jsSetDedupAux seen l).Nodup := by
  induction l with
  | nil => simp [jsSetDedupAux]
  | cons x xs ih =>
    intro seen
    simp only [jsSetDedupAux]
    by_cases hx : x ∈ seen
    · simpa [hx] using ih seen
    · simp only [if_neg hx, List.nodup_cons]
      refine ⟨fun hmem => ?_, ih (x :: seen)⟩
      exact ((mem_jsSetDedupAux xs (x :: seen) x).mp hmem).2 (List.mem_cons_self x seen)

theorem nodup_jsSetDedup {α : Type} [DecidableEq α] (l : List α) :
    (jsSetDedup l).Nodup := nodup_jsSetDedupAux l []

theorem lookup_cons {β : Type} (a k : String) (v : β) (l : List (String × β)) :
    List.lookup a ((k, v) :: l) = if a = k then some v else List.lookup a l := by
  by_cases h : a = k
  · simp [List.lookup, h]
  · have hb : (a == k) = false := beq_eq_false_iff_ne.mpr h
    simp [List.lookup, hb, h]

-- ---------------------------------------------------------------------------
-- OfflineQueue lemmas
-- ---------------------------------------------------------------------------

theorem mem_pending (q : List SyncQueueEntry) (a : String) :
    a ∈ getPendingArtworkIds q ↔ ∃ e ∈ q, a ∈ e.artworkIds := by
  simp [getPendingArtworkIds, mem_jsSetDedup]

theorem mem_pending_enqueue (ids : List String) (now : String)
    (q : List SyncQueueEntry) (a : String) :
    a ∈ getPendingArtworkIds (enqueueSync ids now q) ↔
      a ∈ ids ∨ a ∈ getPendingArtworkIds q := by
  unfold enqueueSync
  by_cases hids : ids = []
  · simp [hids]
  · rw [if_neg hids]
    by_cases hguard :
        ids.filter (fun id => decide (id ∉ q.flatMap (fun e => e.artworkIds))) = [] ∧
          q ≠ []
    · -- every id is already pending and the queue is non-empty: no-op
      rw [if_pos hguard]
      have hsub : ∀ i ∈ ids, i ∈ q.flatMap (fun e => e.artworkIds) := by
        intro i hi
        have := List.filter_eq_nil_iff.mp hguard.1 i hi
        simpa using this
      constructor
      · exact Or.inr
      · rintro (h | h)
        · rw [mem_pending]
          rcases List.mem_flatMap.mp (hsub a h) with ⟨e, he, hae⟩
          exact ⟨e, he, hae⟩
        · exact h
    · rw [if_neg hguard]
      rcases q.eq_nil_or_concat with rfl | ⟨l, e, rfl⟩
      · show a ∈ getPendingArtworkIds [⟨jsSetDedup ids, now⟩] ↔ _
        simp [getPendingArtworkIds, mem_jsSetDedup]
      · simp only [List.concat_eq_append, List.getLast?_concat, List.dropLast_concat]
        simp only [getPendingArtworkIds, mem_jsSetDedup, List.flatMap_append,
          List.flatMap_cons, List.flatMap_nil, List.mem_append, List.append_nil,
          List.mem_cons]
        tauto

theorem enqueue_noop_of_pending (ids : List String) (now : String)
    (q : List SyncQueueEntry) (h : ∀ i ∈ ids, i ∈ getPendingArtworkIds q) :
    enqueueSync ids now q = q := by
  unfold enqueueSync
  by_cases hids : ids = []
  · simp [hids]
  · rcases List.exists_mem_of_ne_nil ids hids with ⟨i0, hi0⟩
    have hq : q ≠ [] := by
      intro hc
      subst hc
      rcases (mem_pending [] i0).mp (h i0 hi0) with ⟨e, he, -⟩
      exact absurd he (List.not_mem_nil e)
    have hguard :
        ids.filter (fun id => decide (id ∉ q.flatMap (fun e => e.artworkIds))) = [] ∧
          q ≠ [] := by
      refine ⟨List.filter_eq_nil_iff.mpr fun a ha => ?_, hq⟩
      rcases (mem_pending q a).mp (h a ha) with ⟨e, he, hae⟩
      simp only [decide_eq_true_eq, Decidable.not_not]
      exact List.mem_flatMap.mpr ⟨e, he, hae⟩
    rw [if_neg hids, if_pos hguard]

theorem reachable_shape {q : List SyncQueueEntry} (h : QueueReachable q) :
    q = [] ∨ ∃ e, q = [e] ∧ e.artworkIds.Nodup := by
  induction h with
  | nil => exact Or.inl rfl
  | enqueue ids now _ ih =>
    unfold enqueueSync
    by_cases hids : ids = []
    · simpa [hids] using ih
    · rw [if_neg hids]
      rcases ih with rfl | ⟨e, rfl, hn⟩
      · rw [if_neg (by simp)]
        exact Or.inr ⟨⟨jsSetDedup ids, now⟩, rfl, nodup_jsSetDedup _⟩
      · by_cases hguard :
            ids.filter (fun id => decide (id ∉ [e].flatMap (fun e => e.artworkIds))) = [] ∧
              ([e] : List SyncQueueEntry) ≠ []
        · rw [if_pos hguard]
          exact Or.inr ⟨e, rfl, hn⟩
        · rw [if_neg hguard]
          have h1 : ([e].getLast? : Option SyncQueueEntry) = some e := rfl
          rw [h1]
          exact Or.inr ⟨⟨jsSetDedup (e.artworkIds ++ ids), now⟩, rfl, nodup_jsSetDedup _⟩

theorem reachable_flat_nodup {q : List SyncQueueEntry} (h : QueueReachable q) :
    (q.flatMap (fun e => e.artworkIds)).Nodup := by
  rcases reachable_shape h with rfl | ⟨e, rfl, hn⟩
  · simp
  · simpa using hn

theorem applySyncCalls_reachable (calls : List (List String × String)) :
    QueueReachable (applySyncCalls calls) := by
  have general : ∀ (cs : List (List String × String)) (q : List SyncQueueEntry),
      QueueReachable q → QueueReachable (cs.foldl (fun q c => enqueueSync c.1 c.2 q) q) := by
    intro cs
    induction cs with
    | nil => intro q hq; exact hq
    | cons c cs ih =>
      intro q hq
      exact ih _ (QueueReachable.enqueue c.1 c.2 hq)
  exact general calls [] QueueReachable.nil

theorem mem_pending_applySyncCalls (calls : List (List String × String)) (a : String) :
    a ∈ getPendingArtworkIds (applySyncCalls calls) ↔ ∃ c ∈ calls, a ∈ c.1 := by
  have general : ∀ (cs : List (List String × String)) (q : List SyncQueueEntry),
      a ∈ getPendingArtworkIds (cs.foldl (fun q c => enqueueSync c.1 c.2 q) q) ↔
        (∃ c ∈ cs, a ∈ c.1) ∨ a ∈ getPendingArtworkIds q := by
    intro cs
    induction cs with
    | nil => simp
    | cons c cs ih =>
      intro q
      simp only [List.foldl_cons, ih, mem_pending_enqueue]
      constructor
      · rintro (⟨c', hc', ha'⟩ | h | h)
        · exact Or.inl ⟨c', List.mem_cons_of_mem c hc', ha'⟩
        · exact Or.inl ⟨c, List.mem_cons_self c cs, h⟩
        · exact Or.inr h
      · rintro (⟨c', hc', ha'⟩ | h)
        · rcases List.mem_cons.mp hc' with rfl | hc''
          · exact Or.inr (Or.inl ha')
          · exact Or.inl ⟨c', hc'', ha'⟩
        · exact Or.inr (Or.inr h)
  unfold applySyncCalls
  rw [general calls []]
  have hnil : a ∈ getPendingArtworkIds [] ↔ False := by
    constructor
    · intro h
      rcases (mem_pending [] a).mp h with ⟨e, he, -⟩
      exact absurd he (List.not_mem_nil e)
    · exact False.elim
  rw [hnil, or_false]

-- ---------------------------------------------------------------------------
-- Claim C8: OfflineQueue invariant
-- ---------------------------------------------------------------------------

/-- C8: after any sequence of `enqueueSync` calls starting from the
cleared queue, the pending ids are exactly the union of all enqueued id
sets; the queue holds no duplicate id across its entries;
`getPendingArtworkIds` is duplicate-free; enqueueing only
already-pending ids changes nothing; `clearSyncQueue` removes all
pending state. -/
theorem offline_queue_idempotent_union
    (calls : List (List String × String)) (a : String) (ids : List String)
    (now : String) :
    (a ∈ getPendingArtworkIds (applySyncCalls calls) ↔ ∃ c ∈ calls, a ∈ c.1) ∧
    ((applySyncCalls calls).flatMap (fun e => e.artworkIds)).Nodup ∧
    (getPendingArtworkIds (applySyncCalls calls)).Nodup ∧
    ((∀ i ∈ ids, i ∈ getPendingArtworkIds (applySyncCalls calls)) →
      enqueueSync ids now (applySyncCalls calls) = applySyncCalls calls) ∧
    getPendingArtworkIds clearSyncQueue = [] :=
  ⟨mem_pending_applySyncCalls calls a,
   reachable_flat_nodup (applySyncCalls_reachable calls),
   nodup_jsSetDedup _,
   enqueue_noop_of_pending ids now (applySyncCalls calls),
   rfl⟩

/-- Witness for C8 on two overlapping enqueue calls: id `b` is pending
exactly once and re-enqueueing pending ids `a`, `c` is a no-op. -/
theorem offline_queue_idempotent_union_witness :
    (("b" ∈ getPendingArtworkIds (applySyncCalls demoQueueCalls)) ↔
      ∃ c ∈ demoQueueCalls, "b" ∈ c.1) ∧
    enqueueSync ["a", "c"] "t3" (applySyncCalls demoQueueCalls) =
      applySyncCalls demoQueueCalls :=
  ⟨(offline_queue_idempotent_union demoQueueCalls "b" ["a", "c"] "t3").1,
   (offline_queue_idempotent_union demoQueueCalls "b" ["a", "c"] "t3").2.2.2.1
     (by decide)⟩

-- ---------------------------------------------------------------------------
-- Claim C3: sync while offline
-- ---------------------------------------------------------------------------

/-- C3: a `sync()` invocation with a signed-in user while the
connectivity signal reports offline issues no network call, never sets
the Syncing status, returns the empty list, and enqueues the target
board ids into the offline queue as an idempotent, duplicate-free
union. -/
theorem sync_offline_no_network
    (localOverride : Option (List Artwork)) (lastSyncAt : Option String)
    (queue : List SyncQueueEntry) (env : SyncEnv) (hoff : env.onLine = false) :
    (syncCycle true localOverride lastSyncAt queue env).returned = [] ∧
    (syncCycle true localOverride lastSyncAt queue env).statusLog =
      [SyncStatusV.offline] ∧
    SyncStatusV.syncing ∉ (syncCycle true localOverride lastSyncAt queue env).statusLog ∧
    (syncCycle true localOverride lastSyncAt queue env).calls = [] ∧
    (syncCycle true localOverride lastSyncAt queue env).queue =
      enqueueSync ((localOverride.getD env.localArtworks).map (fun a => a.id))
        env.now queue ∧
    (∀ x, x ∈ getPendingArtworkIds (syncCycle true localOverride lastSyncAt queue env).queue ↔
      x ∈ (localOverride.getD env.localArtworks).map (fun a => a.id) ∨
        x ∈ getPendingArtworkIds queue) ∧
    (getPendingArtworkIds (syncCycle true localOverride lastSyncAt queue env).queue).Nodup := by
  have hred : syncCycle true localOverride lastSyncAt queue env =
      { returned := [], statusLog := [SyncStatusV.offline],
        queue := enqueueSync ((localOverride.getD env.localArtworks).map (fun a => a.id))
          env.now queue,
        calls := [], lastSyncAt := lastSyncAt, saved := [] } := by
    simp [syncCycle, hoff]
  rw [hred]
  refine ⟨rfl, rfl, by simp, rfl, rfl, fun x => mem_pending_enqueue _ _ _ _,
    nodup_jsSetDedup _⟩

/-- Witness for C3 at a concrete offline environment. -/
theorem sync_offline_no_network_witness :
    envOffline.onLine = false ∧
    (syncCycle true none none [] envOffline).returned = [] ∧
    (syncCycle true none none [] envOffline).calls = [] ∧
    (syncCycle true none none [] envOffline).statusLog = [SyncStatusV.offline] :=
  ⟨rfl,
   (sync_offline_no_network none none [] envOffline rfl).1,
   (sync_offline_no_network none none [] envOffline rfl).2.2.2.1,
   (sync_offline_no_network none none [] envOffline rfl).2.1⟩

-- ---------------------------------------------------------------------------
-- Claim C1: single-flight discipline
-- ---------------------------------------------------------------------------

/-- C1 (counterexample): with three calls arriving during one in-flight
cycle, the first queued caller's waiter record is overwritten; after the
current cycle (and the follow-up cycle) complete, that caller has not
received any result — contradicting the claim that every earlier queued
caller receives the result of the latest call. -/
theorem sync_single_flight_counterexample :
    1 ∈ (orchRun [OrchEvent.arrive 0, OrchEvent.arrive 1, OrchEvent.arrive 2,
                  OrchEvent.complete, OrchEvent.complete]).dropped ∧
    1 ∉ (orchRun [OrchEvent.arrive 0, OrchEvent.arrive 1, OrchEvent.arrive 2,
                  OrchEvent.complete, OrchEvent.complete]).settled ∧
    (orchRun [OrchEvent.arrive 0, OrchEvent.arrive 1, OrchEvent.arrive 2,
              OrchEvent.complete, OrchEvent.complete]).settled = [0, 2] := by
  decide

/-- C1 (amended): a second call arriving while a cycle is in flight is
stored in the single waiter slot and started exactly when the first
cycle completes, so two overlapping calls produce exactly two cycles
and both callers settle; a newly queued call replaces any previously
queued call, and the replaced caller is dropped without ever settling —
only the latest queued caller runs and receives a result. -/
theorem sync_single_flight (a b c : Nat) :
    (orchRun [OrchEvent.arrive a, OrchEvent.arrive b]).started = [a] ∧
    (orchRun [OrchEvent.arrive a, OrchEvent.arrive b]).queued = some b ∧
    (orchRun [OrchEvent.arrive a, OrchEvent.arrive b, OrchEvent.complete]).started =
      [a, b] ∧
    (orchRun [OrchEvent.arrive a, OrchEvent.arrive b, OrchEvent.complete]).settled =
      [a] ∧
    (orchRun [OrchEvent.arrive a, OrchEvent.arrive b, OrchEvent.complete,
              OrchEvent.complete]).started = [a, b] ∧
    (orchRun [OrchEvent.arrive a, OrchEvent.arrive b, OrchEvent.complete,
              OrchEvent.complete]).settled = [a, b] ∧
    (orchRun [OrchEvent.arrive a, OrchEvent.arrive b, OrchEvent.arrive c,
              OrchEvent.complete, OrchEvent.complete]).started = [a, c] ∧
    (orchRun [OrchEvent.arrive a, OrchEvent.arrive b, OrchEvent.arrive c,
              OrchEvent.complete, OrchEvent.complete]).dropped = [b] ∧
    (orchRun [OrchEvent.arrive a, OrchEvent.arrive b, OrchEvent.arrive c,
              OrchEvent.complete, OrchEvent.complete]).settled = [a, c] :=
  ⟨rfl, rfl, rfl, rfl, rfl, rfl, rfl, rfl, rfl⟩

-- ---------------------------------------------------------------------------
-- Claim C2: upload failure policy in the push cycle
-- ---------------------------------------------------------------------------

/-- C2 (counterexample): with every image upload failing and the board
POST succeeding, `pushToCloud` still commits the boards and reports
success — the push cycle is not failed by the upload failure. -/
theorem push_upload_failure_counterexample :
    envFailUpload.uploadOk (imageHash "data:,AB") = false ∧
    (pushToCloud [awShare1] envFailUpload none).2.head? =
      some (PushCall.upload (imageHash "data:,AB")) ∧
    (pushToCloud [awShare1] envFailUpload none).1 = .ok () ∧
    postedBoards (pushToCloud [awShare1] envFailUpload none).2 =
      [[toBoardPayload awShare1]] :=
  ⟨rfl, rfl, rfl, rfl⟩

/-- C2 (amended): the settled results of the upload tasks are discarded
by `pushToCloud`: the cycle's outcome and the requests it issues
(including the board commit POST) are identical for any two upload
environments, and the outcome is success exactly when nothing needs
pushing or the board POST succeeds — an upload failure is never
escalated. -/
theorem push_upload_failures_ignored (artworks : List Artwork)
    (since : Option String) (u1 u2 : String → Bool) (p : Bool) :
    pushToCloud artworks { uploadOk := u1, postOk := p } since =
      pushToCloud artworks { uploadOk := u2, postOk := p } since ∧
    ((pushToCloud artworks { uploadOk := u1, postOk := p } since).1 = .ok () ↔
      (pushFilter artworks since = [] ∨ p = true)) := by
  constructor
  · rfl
  · by_cases hf : pushFilter artworks since = []
    · simp [pushToCloud, hf]
    · cases p <;> simp [pushToCloud, hf]

-- ---------------------------------------------------------------------------
-- TaskPool lemmas and claim C7
-- ---------------------------------------------------------------------------

theorem set_append_length {α : Type} (l : List α) (x v : α) :
    (l ++ [x]).set l.length v = l ++ [v] := by
  induction l with
  | nil => rfl
  | cons y t ih =>
    show y :: (t ++ [x]).set t.length v = y :: (t ++ [v])
    rw [ih]

theorem jsArraySet_at_length {α : Type} (l : List (Option α)) (v : α) :
    jsArraySet l l.length v = l ++ [some v] := by
  unfold jsArraySet
  have h1 : l.length + 1 - l.length = 1 := by omega
  rw [h1]
  show (l ++ [none]).set l.length (some v) = l ++ [some v]
  exact set_append_length l none (some v)

theorem workerRun_done {ε α : Type} (tasks : List (Except ε α)) (s : PoolState ε α)
    (h : tasks.length ≤ s.idx) : workerRun tasks s = s := by
  unfold workerRun
  split
  · rfl
  · rename_i t heq
    rw [List.getElem?_eq_none h] at heq
    exact Option.noConfusion heq

theorem workerRun_spec {ε α : Type} (tasks : List (Except ε α)) :
    ∀ (fuel : Nat) (s : PoolState ε α), tasks.length - s.idx = fuel →
      s.results.length = s.idx →
      workerRun tasks s =
        ⟨s.idx + fuel, s.results ++ (tasks.drop s.idx).map (fun t => some (settle t))⟩ := by
  intro fuel
  induction fuel with
  | zero =>
    intro s hfuel hlen
    have hle : tasks.length ≤ s.idx := by omega
    rw [workerRun_done tasks s hle, List.drop_eq_nil_of_le hle]
    simp
  | succ n ih =>
    intro s hfuel hlen
    have hlt : s.idx < tasks.length := by omega
    have hget : tasks[s.idx]? = some (tasks[s.idx]) := List.getElem?_eq_getElem hlt
    rw [workerRun]
    split
    · rename_i heq
      rw [hget] at heq
      exact Option.noConfusion heq
    · rename_i t heq
      rw [hget] at heq
      have ht : t = tasks[s.idx] := by injection heq with h'; exact h'.symm
      subst ht
      have hset : ∀ w : SettledResult ε α, jsArraySet s.results s.idx w =
          s.results ++ [some w] := by
        intro w
        rw [← hlen, jsArraySet_at_length]
      rw [hset]
      have := ih ⟨s.idx + 1, s.results ++ [some (settle tasks[s.idx])]⟩
        (by simp; omega) (by simp [hlen])
      simp only at this
      rw [this]
      have hdrop : tasks.drop s.idx = tasks[s.idx] :: tasks.drop (s.idx + 1) :=
        List.drop_eq_getElem_cons hlt
      rw [hdrop]
      simp only [List.map_cons, List.append_assoc, List.singleton_append]
      congr 1
      omega

theorem spawnWorkers_done {ε α : Type} (tasks : List (Except ε α)) (n : Nat)
    (s : PoolState ε α) (h : tasks.length ≤ s.idx) : spawnWorkers tasks n s = s := by
  induction n with
  | zero => rfl
  | succ m ih =>
    show spawnWorkers tasks m (workerRun tasks s) = s
    rw [workerRun_done tasks s h, ih]

/-- C7 (amended): for any concurrency limit `C ≥ 1`, `runConcurrent`
returns exactly one settled outcome per task, in input order — task `i`
fulfilled with its value when it resolved and rejected with its reason
when it threw; a throwing task affects no sibling outcome, all tasks are
attempted, and the empty task list yields the empty result. -/
theorem runConcurrent_outcomes {ε α : Type} (tasks : List (Except ε α)) (C : Nat)
    (hC : 1 ≤ C) :
    runConcurrent tasks C = tasks.map (fun t => some (settle t)) ∧
    (runConcurrent tasks C).length = tasks.length ∧
    runConcurrent ([] : List (Except ε α)) C = [] := by
  have hmain : runConcurrent tasks C = tasks.map (fun t => some (settle t)) := by
    unfold runConcurrent
    rcases Nat.eq_zero_or_pos tasks.length with hz | hpos
    · have : tasks = [] := List.length_eq_zero.mp hz
      subst this
      simp [spawnWorkers]
    · have hmin : 1 ≤ min C tasks.length := le_min hC hpos
      obtain ⟨m, hm⟩ : ∃ m, min C tasks.length = m + 1 :=
        ⟨min C tasks.length - 1, by omega⟩
      rw [hm]
      show (spawnWorkers tasks m (workerRun tasks ⟨0, []⟩)).results = _
      have hw := workerRun_spec tasks tasks.length ⟨0, []⟩ (by simp) (by simp)
      simp only at hw
      rw [hw]
      rw [spawnWorkers_done tasks m _ (by simp)]
      simp
  refine ⟨hmain, by rw [hmain]; simp, ?_⟩
  unfold runConcurrent
  simp [spawnWorkers]

/-- Witness for C7: three tasks at concurrency 3, the middle one
throwing. -/
theorem runConcurrent_outcomes_witness :
    runConcurrent tasksC7 3 =
      [some (SettledResult.fulfilled 1), some (SettledResult.rejected "boom"),
       some (SettledResult.fulfilled 2)] :=
  ((runConcurrent_outcomes tasksC7 3 (by norm_num)).1).trans rfl

/-- C7 (counterexample): with concurrency 0 and one task, no worker is
spawned and `runConcurrent` returns the empty array instead of one
outcome per task. -/
theorem runConcurrent_zero_concurrency_counterexample :
    runConcurrent ([Except.ok 0] : List (Except String Nat)) 0 = [] ∧
    ([Except.ok 0] : List (Except String Nat)).length = 1 :=
  ⟨rfl, rfl⟩

-- ---------------------------------------------------------------------------
-- UploadPipeline lemmas and claim C5
-- ---------------------------------------------------------------------------

theorem lookup_isSome_iff_mem_keys {β : Type} (m : List (String × β)) (h : String) :
    (List.lookup h m).isSome ↔ h ∈ m.map Prod.fst := by
  induction m with
  | nil => simp [List.lookup]
  | cons p t ih =>
    obtain ⟨k, v⟩ := p
    rw [lookup_cons]
    by_cases hk : h = k
    · simp [hk]
    · simp [hk, ih]

theorem lookup_append_single {β : Type} (m : List (String × β)) (k : String) (v : β)
    (h : String) :
    List.lookup h (m ++ [(k, v)]) =
      (List.lookup h m).or (if h = k then some v else none) := by
  induction m with
  | nil =>
    rw [List.nil_append, lookup_cons]
    by_cases hk : h = k <;> simp [hk, List.lookup]
  | cons p t ih =>
    obtain ⟨k', v'⟩ := p
    rw [List.cons_append, lookup_cons, lookup_cons]
    by_cases hk' : h = k'
    · simp [hk']
    · simp only [if_neg hk', ih]

theorem lookup_foldl_collect (imgs : List CanvasImage) :
    ∀ (m : List (String × UploadMeta)) (h : String),
      List.lookup h (imgs.foldl collectStep m) =
        (List.lookup h m).or
          ((imgs.find? (fun i => imageHash i.dataUrl == h)).map uploadMetaOf) := by
  induction imgs with
  | nil => simp
  | cons img rest ih =>
    intro m h
    rw [List.foldl_cons, ih]
    by_cases hph : imageHash img.dataUrl = h
    · rw [List.find?_cons_of_pos _ (by simpa using hph)]
      unfold collectStep
      by_cases hm : (List.lookup (imageHash img.dataUrl) m).isSome
      · rw [if_pos hm, hph] at *
        obtain ⟨v, hv⟩ := Option.isSome_iff_exists.mp hm
        rw [hv]
        rfl
      · rw [if_neg hm, lookup_append_single, if_pos hph.symm]
        rw [hph] at hm
        rw [Option.not_isSome_iff_eq_none.mp hm]
        rfl
    · rw [List.find?_cons_of_neg _ (by simpa using hph)]
      unfold collectStep
      by_cases hm : (List.lookup (imageHash img.dataUrl) m).isSome
      · rw [if_pos hm]
      · rw [if_neg hm, lookup_append_single, if_neg (fun hc => hph hc.symm)]
        rw [Option.or_none]

theorem collectUniqueImages_eq_foldl_flat (toPush : List Artwork) :
    collectUniqueImages toPush =
      (toPush.flatMap (fun aw => aw.images)).foldl collectStep [] := by
  have general : ∀ (l : List Artwork) (m : List (String × UploadMeta)),
      l.foldl (fun m aw => aw.images.foldl collectStep m) m =
        (l.flatMap (fun aw => aw.images)).foldl collectStep m := by
    intro l
    induction l with
    | nil => intro m; rfl
    | cons aw rest ih =>
      intro m
      rw [List.foldl_cons, List.flatMap_cons, List.foldl_append, ih]
  exact general toPush []

theorem lookup_collectUniqueImages (toPush : List Artwork) (h : String) :
    List.lookup h (collectUniqueImages toPush) =
      ((toPush.flatMap (fun aw => aw.images)).find?
        (fun i => imageHash i.dataUrl == h)).map uploadMetaOf := by
  rw [collectUniqueImages_eq_foldl_flat, lookup_foldl_collect]
  rfl

theorem keys_nodup_foldl_collect (imgs : List CanvasImage) :
    ∀ m : List (String × UploadMeta), (m.map Prod.fst).Nodup →
      ((imgs.foldl collectStep m).map Prod.fst).Nodup := by
  induction imgs with
  | nil => exact fun m hm => hm
  | cons img rest ih =>
    intro m hm
    rw [List.foldl_cons]
    apply ih
    unfold collectStep
    by_cases h : (List.lookup (imageHash img.dataUrl) m).isSome
    · rwa [if_pos h]
    · rw [if_neg h]
      have hnotin : imageHash img.dataUrl ∉ m.map Prod.fst :=
        fun hc => h ((lookup_isSome_iff_mem_keys m _).mpr hc)
      simp [List.nodup_append, hm, hnotin]

/-- C5: the upload map built for a push contains each distinct content
hash exactly once (duplicate-free keys covering every image of every
pushed board), the recorded bytes and metadata are those of the first
occurrence of the hash in board order, and `pushToCloud` issues exactly
one upload request per entry of that map before the single board
POST. -/
theorem push_image_dedup (toPush : List Artwork) (h : String) (img : CanvasImage)
    (u : String → Bool) (p : Bool) :
    ((collectUniqueImages toPush).map Prod.fst).Nodup ∧
    (img ∈ toPush.flatMap (fun aw => aw.images) →
      imageHash img.dataUrl ∈ (collectUniqueImages toPush).map Prod.fst) ∧
    List.lookup h (collectUniqueImages toPush) =
      ((toPush.flatMap (fun aw => aw.images)).find?
        (fun i => imageHash i.dataUrl == h)).map uploadMetaOf ∧
    (toPush ≠ [] →
      pushFilter toPush none = toPush ∧
      (pushToCloud toPush { uploadOk := u, postOk := p } none).2 =
        (collectUniqueImages toPush).map (fun q => PushCall.upload q.1) ++
          [PushCall.post (toPush.map toBoardPayload)]) := by
  refine ⟨?_, ?_, lookup_collectUniqueImages toPush h, ?_⟩
  · rw [collectUniqueImages_eq_foldl_flat]
    exact keys_nodup_foldl_collect _ [] (by simp)
  · intro hmem
    rw [← lookup_isSome_iff_mem_keys, lookup_collectUniqueImages]
    have : ((toPush.flatMap (fun aw => aw.images)).find?
        (fun i => imageHash i.dataUrl == imageHash img.dataUrl)).isSome := by
      rw [List.find?_isSome]
      exact ⟨img, hmem, by simp⟩
    rwa [Option.isSome_map']
  · intro hne
    refine ⟨rfl, ?_⟩
    cases p <;> simp [pushToCloud, hne, pushFilter, jsTruthyStr]

/-- Witness for C5: two boards sharing one identical image; the shared
hash appears among the upload-map keys. -/
theorem push_image_dedup_witness :
    (sampleImage "i2" "data:,AB") ∈
      ([awShare1, awShare2].flatMap (fun aw => aw.images)) ∧
    imageHash "data:,AB" ∈
      ((collectUniqueImages [awShare1, awShare2]).map Prod.fst) := by
  have hmem : (sampleImage "i2" "data:,AB") ∈
      ([awShare1, awShare2].flatMap (fun aw => aw.images)) := by decide
  exact ⟨hmem,
    (push_image_dedup [awShare1, awShare2] "" (sampleImage "i2" "data:,AB")
      (fun _ => true) true).2.1 hmem⟩

-- ---------------------------------------------------------------------------
-- Watermark lemmas and claim C4
-- ---------------------------------------------------------------------------

theorem postedBoards_push_calls (uniq : List (String × UploadMeta))
    (b : List BoardPayload) :
    postedBoards (uniq.map (fun q => PushCall.upload q.1) ++ [PushCall.post b]) =
      [b] := by
  induction uniq with
  | nil => rfl
  | cons q t ih => simpa [postedBoards, List.filterMap_cons] using ih

theorem postedIn_push_map (l : List PushCall) :
    postedIn (l.map NetCall.push) = postedBoards l := by
  have hfm : (l.map NetCall.push).filterMap (fun c =>
      match c with
      | NetCall.push p => some p
      | NetCall.pullReq => none) = l := by
    induction l with
    | nil => rfl
    | cons c t ih => simp [List.filterMap_cons, ih]
  rw [postedIn, hfm]

theorem postedIn_push_map_pull (l : List PushCall) :
    postedIn (l.map NetCall.push ++ [NetCall.pullReq]) = postedBoards l := by
  have hfm : (l.map NetCall.push ++ [NetCall.pullReq]).filterMap (fun c =>
      match c with
      | NetCall.push p => some p
      | NetCall.pullReq => none) = l := by
    induction l with
    | nil => rfl
    | cons c t ih => simp [List.filterMap_cons, List.filterMap_append] at ih ⊢; exact ih
  rw [postedIn, hfm]

theorem pushToCloud_posted (artworks : List Artwork) (env : PushEnv)
    (since : Option String) :
    postedBoards (pushToCloud artworks env since).2 =
      (if pushFilter artworks since = [] then []
       else [(pushFilter artworks since).map toBoardPayload]) := by
  rcases env with ⟨u, p⟩
  by_cases hf : pushFilter artworks since = []
  · simp [pushToCloud, hf, postedBoards]
  · cases p <;> simp [pushToCloud, hf, postedBoards_push_calls]

/-- C4: the push watermark of a sync cycle is forced to `null` (all
boards pushed) when the offline queue is non-empty at cycle start, and
is `lastSyncAt` otherwise, in which case exactly the boards whose
`updatedAt` is strictly after the watermark are pushed; the board POST
of the cycle carries exactly the filtered boards. -/
theorem push_watermark_rule
    (queue : List SyncQueueEntry) (lastSyncAt : Option String)
    (localOverride : Option (List Artwork)) (env : SyncEnv) (t : String)
    (arts : List Artwork) (hon : env.onLine = true) :
    (getPendingArtworkIds queue ≠ [] →
      computeSince queue lastSyncAt = none ∧ pushFilter arts none = arts) ∧
    (getPendingArtworkIds queue = [] →
      computeSince queue lastSyncAt = lastSyncAt) ∧
    (t ≠ "" →
      pushFilter arts (some t) = arts.filter (fun a => jsStrLt t a.updatedAt) ∧
      (∀ a ∈ arts, (a ∈ pushFilter arts (some t) ↔ jsStrLt t a.updatedAt = true))) ∧
    postedIn (syncCycle true localOverride lastSyncAt queue env).calls =
      (if pushFilter (localOverride.getD env.localArtworks)
            (computeSince queue lastSyncAt) = []
       then []
       else [(pushFilter (localOverride.getD env.localArtworks)
               (computeSince queue lastSyncAt)).map toBoardPayload]) := by
  refine ⟨?_, ?_, ?_, ?_⟩
  · intro hne
    constructor
    · simp [computeSince, List.length_pos, hne]
    · rfl
  · intro he
    simp [computeSince, he]
  · intro ht
    have htruthy : jsTruthyStr (some t) = true := by
      simp [jsTruthyStr, ht]
    constructor
    · simp [pushFilter, htruthy]
    · intro a ha
      simp [pushFilter, htruthy, List.mem_filter, ha]
  · have hred : (syncCycle true localOverride lastSyncAt queue env).calls =
        (let arts' := localOverride.getD env.localArtworks
         let pushOut := if 0 < arts'.length
           then pushToCloud arts' env.pushEnv (computeSince queue lastSyncAt)
           else (Except.ok (), [])
         match pushOut.1 with
         | Except.error _ => pushOut.2.map NetCall.push
         | Except.ok _ => pushOut.2.map NetCall.push ++ [NetCall.pullReq]) := by
      simp only [syncCycle, hon]
      rcases hp : (if 0 < (localOverride.getD env.localArtworks).length
        then pushToCloud (localOverride.getD env.localArtworks) env.pushEnv
          (computeSince queue lastSyncAt)
        else (Except.ok (), [])).1 with e | u
      · simp only [hp]
        by_cases hc : env.onLineAtCatch <;> simp [hc, hp]
      · simp only [hp]
        by_cases hpull : env.pullOk
        · simp [hpull, hp]
        · by_cases hc : env.onLineAtCatch <;> simp [hpull, hc, hp]
    rw [hred]
    by_cases hlen : 0 < (localOverride.getD env.localArtworks).length
    · simp only [hlen, if_true]
      rcases hp : (pushToCloud (localOverride.getD env.localArtworks) env.pushEnv
          (computeSince queue lastSyncAt)).1 with e | u
      · simp only
        rw [postedIn_push_map, pushToCloud_posted]
      · simp only
        rw [postedIn_push_map_pull, pushToCloud_posted]
    · have harts : localOverride.getD env.localArtworks = [] := by
        rcases hd : localOverride.getD env.localArtworks with _ | ⟨a, l⟩
        · rfl
        · rw [hd] at hlen
          simp at hlen
      simp only [hlen, if_false]
      have hpf : pushFilter [] (computeSince queue lastSyncAt) = [] := by
        unfold pushFilter
        split <;> rfl
      rw [harts, hpf]
      simp only [if_pos rfl]
      show postedIn (List.map NetCall.push [] ++ [NetCall.pullReq]) = []
      rw [postedIn_push_map_pull]
      rfl

/-- Witness for C4: with `lastSyncAt = T` and boards updated at `T − 5`
and `T + 5`, an empty queue yields `since = T` and exactly the later
board is pushed. -/
theorem push_watermark_rule_witness :
    ("2024-01-01T00:00:10.000Z" : String) ≠ "" ∧
    pushFilter [awEarly, awLate] (some "2024-01-01T00:00:10.000Z") = [awLate] ∧
    getPendingArtworkIds [] = [] ∧
    computeSince [] (some "2024-01-01T00:00:10.000Z") =
      some "2024-01-01T00:00:10.000Z" ∧
    postedIn (syncCycle true none (some "2024-01-01T00:00:10.000Z") []
      envOnline).calls = [[toBoardPayload awLate]] := by
  have h := push_watermark_rule [] (some "2024-01-01T00:00:10.000Z") none envOnline
    "2024-01-01T00:00:10.000Z" [awEarly, awLate] rfl
  refine ⟨by decide, ?_, rfl, h.2.1 rfl, ?_⟩
  · exact ((h.2.2.1 (by decide)).1).trans (by decide)
  · exact (h.2.2.2).trans (by decide)

-- ---------------------------------------------------------------------------
-- PullMerger lemmas and claim C6
-- ---------------------------------------------------------------------------

theorem lookup_filterMap_keyed (l : List String) (F : String → Option String)
    (h : String) :
    List.lookup h (l.filterMap (fun k => (F k).map (fun d => (k, d)))) =
      (if h ∈ l then F h else none) := by
  induction l with
  | nil => simp [List.lookup]
  | cons k t ih =>
    rw [List.filterMap_cons]
    cases hF : F k
    · simp only [Option.map_none']
      rw [ih]
      by_cases hk : h = k
      · subst hk
        by_cases hht : h ∈ t <;> simp [hht, hF]
      · simp [hk, List.mem_cons]
    · simp only [Option.map_some']
      rw [lookup_cons]
      by_cases hk : h = k
      · subst hk
        simp [hF]
      · simp [hk, ih, List.mem_cons]

theorem mem_referencedResolvableHashes (env : PullEnv) (h : String) :
    h ∈ referencedResolvableHashes env ↔
      ((env.imageMap.lookup h).isSome ∧
        ∃ b ∈ env.boards, ∃ ci ∈ b.canvasState, ci.imageHash = h) := by
  unfold referencedResolvableHashes
  rw [mem_jsSetDedup, List.mem_flatMap]
  constructor
  · rintro ⟨b, hb, hmem⟩
    rcases List.mem_filterMap.mp hmem with ⟨ci, hci, hf⟩
    by_cases hs : (env.imageMap.lookup ci.imageHash).isSome
    · rw [if_pos hs] at hf
      have hcih : ci.imageHash = h := by injection hf
      subst hcih
      exact ⟨hs, b, hb, ci, hci, rfl⟩
    · rw [if_neg hs] at hf
      exact Option.noConfusion hf
  · rintro ⟨hs, b, hb, ci, hci, rfl⟩
    exact ⟨b, hb, List.mem_filterMap.mpr ⟨ci, hci, by rw [if_pos hs]⟩⟩

theorem lookup_resolveCache (env : PullEnv) (h : String) :
    List.lookup h (resolveCache env) =
      (if h ∈ referencedResolvableHashes env then cacheFetch env h else none) :=
  lookup_filterMap_keyed _ _ h

/-- C6: pull-merge skip-on-failure — every board returned by the pull
endpoint is merged and returned (one output board per input board); a
board's merged image list is exactly its canvas references whose hash is
in the fetch cache, resolved in order; and a reference's hash is in the
cache precisely when the hash is present in the endpoint's image map and
its byte fetch succeeded — so an unresolvable image is dropped alone and
never discards its board. -/
theorem pull_merge_skip_on_failure (env : PullEnv) (board : CloudBoard)
    (hmem : board ∈ env.boards) :
    (pullFromCloud env).length = env.boards.length ∧
    mergeBoard (resolveCache env) board ∈ pullFromCloud env ∧
    (mergeBoard (resolveCache env) board).images =
      (board.canvasState.filter (fun ci =>
        ((resolveCache env).lookup ci.imageHash).isSome)).map
        (resolveImage (resolveCache env)) ∧
    (∀ ci ∈ board.canvasState,
      (((resolveCache env).lookup ci.imageHash).isSome ↔
        ∃ loc, env.imageMap.lookup ci.imageHash = some loc ∧
          (env.fetchOk loc.url).isSome)) := by
  refine ⟨by simp [pullFromCloud], List.mem_map_of_mem _ hmem, rfl, ?_⟩
  intro ci hci
  rw [lookup_resolveCache]
  by_cases href : ci.imageHash ∈ referencedResolvableHashes env
  · rw [if_pos href]
    unfold cacheFetch
    rcases hl : env.imageMap.lookup ci.imageHash with _ | loc
    · have := ((mem_referencedResolvableHashes env _).mp href).1
      rw [hl] at this
      exact absurd this (by simp)
    · constructor
      · intro hf
        exact ⟨loc, rfl, hf⟩
      · rintro ⟨loc', hl', hf'⟩
        have : loc = loc' := by injection hl'
        rwa [this]
  · rw [if_neg href]
    constructor
    · intro hfalse
      exact absurd hfalse (by simp)
    · rintro ⟨loc, hl, hf⟩
      refine absurd ((mem_referencedResolvableHashes env _).mpr ⟨?_, board, hmem, ci, hci, rfl⟩) href
      rw [hl]
      rfl

/-- Witness for C6: a board referencing hashes `h1` (resolvable) and
`h2` (absent from the image map) is returned with exactly the `h2`
image dropped. -/
theorem pull_merge_skip_on_failure_witness :
    boardC6 ∈ envPullC6.boards ∧
    ((mergeBoard (resolveCache envPullC6) boardC6).images.map (fun i => i.id) =
      ["c1"]) ∧
    (pullFromCloud envPullC6).length = 1 := by
  have hmem : boardC6 ∈ envPullC6.boards := List.mem_singleton.mpr rfl
  refine ⟨hmem, ?_, (pull_merge_skip_on_failure envPullC6 boardC6 hmem).1.trans rfl⟩
  rw [(pull_merge_skip_on_failure envPullC6 boardC6 hmem).2.2.1]
  decide

-- ---------------------------------------------------------------------------
-- Remote push endpoint lemmas and claim C9
-- ---------------------------------------------------------------------------

theorem lookup_update_self {β : Type} (store : List (String × β)) (k : String)
    (v : β) (h : (List.lookup k store).isSome) :
    List.lookup k (store.map (fun p => if p.1 = k then (p.1, v) else p)) = some v := by
  induction store with
  | nil => simp [List.lookup] at h
  | cons p t ih =>
    obtain ⟨k', v'⟩ := p
    simp only [List.map_cons]
    by_cases hk : k' = k
    · subst hk
      rw [if_pos rfl, lookup_cons, if_pos rfl]
    · rw [lookup_cons, if_neg (fun hc => hk hc.symm)] at h
      rw [if_neg hk, lookup_cons, if_neg (fun hc => hk hc.symm)]
      exact ih h

theorem lookup_update_other {β : Type} (store : List (String × β)) (k k' : String)
    (v : β) (hne : k' ≠ k) :
    List.lookup k' (store.map (fun p => if p.1 = k then (p.1, v) else p)) =
      List.lookup k' store := by
  induction store with
  | nil => rfl
  | cons p t ih =>
    obtain ⟨k0, v0⟩ := p
    simp only [List.map_cons]
    by_cases hk0 : k0 = k
    · subst hk0
      rw [if_pos rfl, lookup_cons, lookup_cons, if_neg hne, if_neg hne]
      exact ih
    · rw [if_neg hk0, lookup_cons, lookup_cons]
      by_cases hkk : k' = k0
      · simp [hkk]
      · rw [if_neg hkk, if_neg hkk]
        exact ih

theorem postSyncBoard_version_mono (now : String)
    (store : List (String × StoredBoard)) (b : IncomingBoard) (id : String)
    (rec : StoredBoard) (hrec : List.lookup id store = some rec) :
    ∃ rec', List.lookup id (postSyncBoard now store b) = some rec' ∧
      rec.syncVersion.getD 1 ≤ rec'.syncVersion.getD 1 := by
  unfold postSyncBoard
  by_cases hskip : b.id = "" ∨ b.title = "" ∨ b.canvasState = none
  · rw [if_pos hskip]
    exact ⟨rec, hrec, le_refl _⟩
  · rw [if_neg hskip]
    rcases hex : List.lookup b.id store with _ | existing
    · simp only [hex]
      refine ⟨rec, ?_, le_refl _⟩
      rw [lookup_append_single, hrec]
      rfl
    · simp only [hex]
      by_cases hver : b.syncVersion.getD 1 ≥ existing.syncVersion.getD 1
      · rw [if_pos hver]
        by_cases hid : id = b.id
        · subst hid
          have hre : rec = existing := by
            rw [hrec] at hex
            injection hex
          refine ⟨coerceBoard now b existing.createdAt
            (some (existing.syncVersion.getD 1 + 1)), ?_, ?_⟩
          · exact lookup_update_self store b.id _ (by rw [hrec]; rfl)
          · rw [hre]
            simp [coerceBoard]
        · refine ⟨rec, ?_, le_refl _⟩
          rw [lookup_update_other store b.id id _ hid, hrec]
      · rw [if_neg hver]
        exact ⟨rec, hrec, le_refl _⟩

theorem postSync_version_mono (now : String) (store : List (String × StoredBoard))
    (boards : List IncomingBoard) (id : String) (rec : StoredBoard)
    (hrec : List.lookup id store = some rec) :
    ∃ rec', List.lookup id (postSync now store boards) = some rec' ∧
      rec.syncVersion.getD 1 ≤ rec'.syncVersion.getD 1 := by
  unfold postSync
  by_cases hlim : boards.length > 100
  · rw [if_pos hlim]
    exact ⟨rec, hrec, le_refl _⟩
  · rw [if_neg hlim]
    clear hlim
    induction boards generalizing store rec with
    | nil => exact ⟨rec, hrec, le_refl _⟩
    | cons b rest ih =>
      obtain ⟨r1, h1, hle1⟩ := postSyncBoard_version_mono now store b id rec hrec
      obtain ⟨r2, h2, hle2⟩ := ih (postSyncBoard now store b) r1 h1
      exact ⟨r2, h2, le_trans hle1 hle2⟩

/-- C9: at the remote push endpoint, a board whose id already exists for
the caller is updated only when the incoming `syncVersion` is at least
the stored one, every accepted update stores the old version plus one,
and consequently the stored `syncVersion` of a board never decreases
across a whole POST. -/
theorem syncVersion_fence_monotone (now : String)
    (store : List (String × StoredBoard)) (b : IncomingBoard)
    (existing : StoredBoard) (boards : List IncomingBoard) (id : String)
    (rec : StoredBoard) :
    (¬(b.id = "" ∨ b.title = "" ∨ b.canvasState = none) →
      List.lookup b.id store = some existing →
      (b.syncVersion.getD 1 < existing.syncVersion.getD 1 →
        postSyncBoard now store b = store) ∧
      (existing.syncVersion.getD 1 ≤ b.syncVersion.getD 1 →
        List.lookup b.id (postSyncBoard now store b) =
          some (coerceBoard now b existing.createdAt
            (some (existing.syncVersion.getD 1 + 1))))) ∧
    (List.lookup id store = some rec →
      ∃ rec', List.lookup id (postSync now store boards) = some rec' ∧
        rec.syncVersion.getD 1 ≤ rec'.syncVersion.getD 1) := by
  constructor
  · intro hvalid hex
    constructor
    · intro hlt
      unfold postSyncBoard
      rw [if_neg hvalid]
      simp only [hex]
      rw [if_neg (by omega)]
    · intro hge
      unfold postSyncBoard
      rw [if_neg hvalid]
      simp only [hex]
      rw [if_pos (by omega)]
      exact lookup_update_self store b.id _ (by rw [hex]; rfl)
  · exact postSync_version_mono now store boards id rec

/-- Witness for C9: a stored board at version 3 updated by an incoming
board at version 3 — the update is accepted and the stored version
becomes 4, never less than 3. -/
theorem syncVersion_fence_monotone_witness :
    List.lookup "b1" [("b1", storedC9)] = some storedC9 ∧
    (∃ rec', List.lookup "b1" (postSync "2024-01-03T00:00:00.000Z"
        [("b1", storedC9)] [incomingC9]) = some rec' ∧
      storedC9.syncVersion.getD 1 ≤ rec'.syncVersion.getD 1) ∧
    (List.lookup "b1" (postSync "2024-01-03T00:00:00.000Z"
        [("b1", storedC9)] [incomingC9])).map (fun r => r.syncVersion) =
      some (some 4) := by
  refine ⟨by decide, ?_, by decide⟩
  exact (syncVersion_fence_monotone "2024-01-03T00:00:00.000Z" [("b1", storedC9)]
    incomingC9 storedC9 [incomingC9] "b1" storedC9).2 (by decide)

-- ---------------------------------------------------------------------------
-- Content hash lemmas and claim C10
-- ---------------------------------------------------------------------------

theorem toB36Digit_ne_dash (d : Nat) (h : d < 36) : toB36Digit d ≠ '-' := by
  interval_cases d <;> decide

theorem b36Val_toB36Digit (d : Nat) (h : d < 36) : b36Val (toB36Digit d) = d := by
  interval_cases d <;> decide

theorem toB36_ne_dash (n : Nat) : ∀ c ∈ toB36 n, c ≠ '-' := by
  induction n using Nat.strong_induction_on with
  | _ n ih =>
    intro c hc
    by_cases h : n < 36
    · rw [toB36, dif_pos h] at hc
      rcases List.mem_singleton.mp hc with rfl
      exact toB36Digit_ne_dash n h
    · rw [toB36, dif_neg h] at hc
      rcases List.mem_append.mp hc with h1 | h1
      · exact ih (n / 36) (Nat.div_lt_self (by omega) (by omega)) c h1
      · rcases List.mem_singleton.mp h1 with rfl
        exact toB36Digit_ne_dash _ (Nat.mod_lt n (by omega))

theorem decodeB36_append_digit (l : List Char) (c : Char) :
    decodeB36 (l ++ [c]) = decodeB36 l * 36 + b36Val c := by
  simp [decodeB36, List.foldl_append]

theorem decodeB36_toB36 (n : Nat) : decodeB36 (toB36 n) = n := by
  induction n using Nat.strong_induction_on with
  | _ n ih =>
    by_cases h : n < 36
    · rw [toB36, dif_pos h]
      show 0 * 36 + b36Val (toB36Digit n) = n
      rw [b36Val_toB36Digit n h]
      omega
    · rw [toB36, dif_neg h, decodeB36_append_digit,
        ih (n / 36) (Nat.div_lt_self (by omega) (by omega)),
        b36Val_toB36Digit _ (Nat.mod_lt n (by omega))]
      omega

theorem toB36_inj (a b : Nat) (h : toB36 a = toB36 b) : a = b := by
  rw [← decodeB36_toB36 a, ← decodeB36_toB36 b, h]

theorem takeWhile_append_stop (p : Char → Bool) (l : List Char) (x : Char)
    (r : List Char) (hl : ∀ a ∈ l, p a = true) (hx : p x = false) :
    (l ++ x :: r).takeWhile p = l := by
  induction l with
  | nil => simp [List.takeWhile, hx]
  | cons y ys ih =>
    have hy : p y = true := hl y (List.mem_cons_self y ys)
    simp only [List.cons_append, List.takeWhile_cons, hy, if_true]
    rw [ih (fun a ha => hl a (List.mem_cons_of_mem y ha))]

theorem lastSegOf_append (xs : List Char) (C : List Char)
    (hC : ∀ c ∈ C, c ≠ '-') : lastSegOf (xs ++ '-' :: C) = C := by
  unfold lastSegOf
  rw [List.reverse_append, List.reverse_cons, List.append_assoc,
    List.singleton_append]
  rw [takeWhile_append_stop _ C.reverse '-' xs.reverse
    (fun a ha => by
      have := hC a (List.mem_reverse.mp ha)
      simpa using this)
    (by decide)]
  exact List.reverse_reverse C

theorem lastSegOf_imageHash (dataUrl : String) :
    lastSegOf (imageHash dataUrl).data = toB36 (payloadOf dataUrl.data).length := by
  have hstruct : ∀ A B C : List Char, (∀ c ∈ C, c ≠ '-') →
      lastSegOf ('l' :: 'i' :: 'b' :: '-' :: (A ++ '-' :: (B ++ '-' :: C))) = C := by
    intro A B C hC
    have hre : 'l' :: 'i' :: 'b' :: '-' :: (A ++ '-' :: (B ++ '-' :: C)) =
        (('l' :: 'i' :: 'b' :: '-' :: A) ++ '-' :: B) ++ '-' :: C := by
      simp
    rw [hre]
    exact lastSegOf_append _ _ hC
  exact hstruct _ _ _ (toB36_ne_dash _)

/-- C10: `imageHash` renders the payload length as a base-36 suffix
after the last `-`, and the base-36 digits never contain `-`, so two
data URLs whose payloads have different lengths always hash
differently — a collision requires payloads of exactly equal length. -/
theorem imageHash_length_suffix (d1 d2 : String)
    (h : (payloadOf d1.data).length ≠ (payloadOf d2.data).length) :
    imageHash d1 ≠ imageHash d2 := by
  intro heq
  apply h
  have hdata : (imageHash d1).data = (imageHash d2).data := by rw [heq]
  have h1 := lastSegOf_imageHash d1
  have h2 := lastSegOf_imageHash d2
  rw [hdata] at h1
  exact toB36_inj _ _ (h1.symm.trans h2)

/-- Witness for C10: two data URLs with payloads of length 2 and 3. -/
theorem imageHash_length_suffix_witness :
    (payloadOf ("data:;base64,AA" : String).data).length ≠
      (payloadOf ("data:;base64,AAA" : String).data).length ∧
    imageHash "data:;base64,AA" ≠ imageHash "data:;base64,AAA" :=
  ⟨by decide, imageHash_length_suffix _ _ (by decide)⟩

end Moodboard
